import Mathlib

/-!
Shallow embedding of the Alpha Clash TCG arena core managers
(`TurnManager`, `LifeManager`, `TokenManager`) together with proofs about
the turn/phase state machine, the life and token bookkeeping invariants,
and the event-notification behaviour.

JavaScript `Map`s and plain objects used as dictionaries are modelled as
association lists with unique keys; numbers are modelled as `Int`;
methods that `throw` are modelled with `Except String`; change
notifications (delivered synchronously to every registered listener,
with listener failures swallowed) are modelled as the list of events an
operation hands to its `notify*Listeners` loop.
-/

namespace AlphaClash

/-! ### Association-list model of JS `Map` / object dictionaries -/

def assocGet {α β : Type} [DecidableEq α] : List (α × β) → α → Option β
  | [], _ => none
  | (k', v) :: t, k => if k' = k then some v else assocGet t k

def assocSet {α β : Type} [DecidableEq α] : List (α × β) → α → β → List (α × β)
  | [], k, v => [(k, v)]
  | (k', v') :: t, k, v =>
      if k' = k then (k, v) :: t else (k', v') :: assocSet t k v

/-- Model of `Map.delete` / `delete obj[key]` (keys are unique, so removing
every pair with the key is the same as removing the entry). -/
def assocErase {α β : Type} [DecidableEq α] (l : List (α × β)) (k : α) : List (α × β) :=
  l.filter (fun p => decide (p.1 ≠ k))

theorem assocGet_set {α β : Type} [DecidableEq α] (l : List (α × β)) (k k' : α) (v : β) :
    assocGet (assocSet l k v) k' = if k = k' then some v else assocGet l k' := by
  induction l with
  | nil => simp [assocSet, assocGet]
  | cons hd t ih =>
      obtain ⟨k'', v''⟩ := hd
      by_cases h1 : k'' = k
      · subst h1
        by_cases h2 : k'' = k' <;> simp [assocSet, assocGet, h2]
      · by_cases h2 : k'' = k'
        · subst h2
          have : ¬ k = k'' := fun h => h1 h.symm
          simp [assocSet, assocGet, h1, this]
        · simp [assocSet, assocGet, h1, h2, ih]

theorem assocGet_erase {α β : Type} [DecidableEq α] (l : List (α × β)) (k k' : α) :
    assocGet (assocErase l k) k' = if k = k' then none else assocGet l k' := by
  induction l with
  | nil => simp [assocErase, assocGet]
  | cons hd t ih =>
      obtain ⟨k'', v''⟩ := hd
      by_cases h1 : k'' = k
      · subst h1
        by_cases h2 : k'' = k'
        · subst h2
          simp [assocErase, assocGet] at ih ⊢
          simpa using ih
        · have : ¬ k'' = k' := h2
          simp [assocErase, assocGet, this] at ih ⊢
          simpa using ih
      · by_cases h2 : k'' = k'
        · subst h2
          have : ¬ k = k'' := fun h => h1 h.symm
          simp [assocErase, assocGet, h1, this]
        · simp [assocErase, assocGet, h1, h2] at ih ⊢
          exact ih

theorem assocSet_ne_nil {α β : Type} [DecidableEq α] (l : List (α × β)) (k : α) (v : β) :
    assocSet l k v ≠ [] := by
  cases l with
  | nil => simp [assocSet]
  | cons hd t =>
      obtain ⟨k', v'⟩ := hd
      by_cases h : k' = k <;> simp [assocSet, h]

/-! ### Turn phases (`src/types/game.ts`) -/

/-- The eight turn phases (`TurnPhase` union type).  The TS literal `'end'`
is a Lean keyword, hence the constructor name `end_`. -/
inductive TurnPhase where
  | start
  | untap
  | draw
  | resource
  | main
  | clash
  | main2
  | end_
deriving DecidableEq, Repr

/-- Source constant `TURN_PHASES`. -/
def TURN_PHASES : List TurnPhase :=
  [.start, .untap, .draw, .resource, .main, .clash, .main2, .end_]

/-- Source function `getNextPhase`.  The JS `indexOf === -1` branch cannot
arise for the closed `TurnPhase` enum (every phase is in `TURN_PHASES`),
so `List.indexOf` (which would return the length when missing) is a
faithful translation; the `undefined` guard on `TURN_PHASES[index + 1]`
becomes the `Option.getD` default. -/
def getNextPhase (currentPhase : TurnPhase) : TurnPhase :=
  let index := TURN_PHASES.indexOf currentPhase
  if index = TURN_PHASES.length - 1 ∨ TURN_PHASES.length ≤ index then
    .start
  else
    (TURN_PHASES.get? (index + 1)).getD .start

/-- Source function `isValidPhaseTransition`. -/
def isValidPhaseTransition (fromPhase toPhase : TurnPhase) : Bool :=
  let fromIndex := TURN_PHASES.indexOf fromPhase
  let toIndex := TURN_PHASES.indexOf toPhase
  toIndex = fromIndex + 1 || (fromPhase = .end_ && toPhase = .start)

/-! ### TurnManager (`src/managers/TurnManager.ts`) -/

structure PhaseActions where
  canDraw : Bool
  canPlayResource : Bool
  canPlayCards : Bool
  canAttack : Bool
  canActivateAbilities : Bool
deriving DecidableEq, Repr

structure TurnState where
  turnNumber : Int
  phase : TurnPhase
  activePlayerId : String
  phaseActionsRemaining : PhaseActions
deriving DecidableEq, Repr

structure TurnChangeEvent where
  previousTurn : Int
  newTurn : Int
  activePlayerId : String
deriving DecidableEq, Repr

structure PhaseChangeEvent where
  previousPhase : TurnPhase
  newPhase : TurnPhase
  turnNumber : Int
deriving DecidableEq, Repr

structure TurnManagerConfig where
  skipFirstDraw : Bool
  resourcesPerTurn : Int
  drawsPerTurn : Int
deriving DecidableEq, Repr

/-- Source constant `DEFAULT_CONFIG` of `TurnManager.ts`. -/
def DEFAULT_TURN_CONFIG : TurnManagerConfig :=
  { skipFirstDraw := true, resourcesPerTurn := 1, drawsPerTurn := 1 }

/-- Source constant `DEFAULT_PHASE_ACTIONS` (record keyed by phase). -/
def DEFAULT_PHASE_ACTIONS : TurnPhase → PhaseActions
  | .start => ⟨false, false, false, false, false⟩
  | .untap => ⟨false, false, false, false, false⟩
  | .draw => ⟨true, false, false, false, false⟩
  | .resource => ⟨false, true, false, false, false⟩
  | .main => ⟨false, false, true, false, true⟩
  | .clash => ⟨false, false, false, true, true⟩
  | .main2 => ⟨false, false, true, false, true⟩
  | .end_ => ⟨false, false, false, false, false⟩

/-- The `TurnManager` class fields (listener sets are not part of the
state model; the events an operation hands to `notifyTurnListeners` /
`notifyPhaseListeners` — which deliver them synchronously to every
registered listener, swallowing listener errors — are returned as
notification lists by each operation). -/
structure TurnManager where
  state : TurnState
  playerIds : String × String
  config : TurnManagerConfig
deriving DecidableEq, Repr

/-- The `TurnManager` constructor (the caller's partial config merged with
`DEFAULT_CONFIG` is passed as the full `config`). -/
def TurnManager.new (player1Id player2Id : String) (config : TurnManagerConfig) : TurnManager :=
  { state :=
      { turnNumber := 1
        phase := .start
        activePlayerId := player1Id
        phaseActionsRemaining := DEFAULT_PHASE_ACTIONS .start }
    playerIds := (player1Id, player2Id)
    config := config }

def TurnManager.getTurnNumber (tm : TurnManager) : Int := tm.state.turnNumber

def TurnManager.getCurrentPhase (tm : TurnManager) : TurnPhase := tm.state.phase

def TurnManager.getActivePlayerId (tm : TurnManager) : String := tm.state.activePlayerId

def TurnManager.getInactivePlayerId (tm : TurnManager) : String :=
  if tm.playerIds.1 = tm.state.activePlayerId then tm.playerIds.2 else tm.playerIds.1

def TurnManager.isPlayerTurn (tm : TurnManager) (playerId : String) : Bool :=
  tm.state.activePlayerId = playerId

/-- `getPhaseActions` returns `{ ...this.state.phaseActionsRemaining }`, a
copy of a record of booleans (a value in this model). -/
def TurnManager.getPhaseActions (tm : TurnManager) : PhaseActions :=
  tm.state.phaseActionsRemaining

/-- Source method `endTurn`; the returned `TurnChangeEvent` is also the one
event handed to `notifyTurnListeners`. -/
def TurnManager.endTurn (tm : TurnManager) : TurnManager × TurnChangeEvent :=
  let previousTurn := tm.state.turnNumber
  let newActive :=
    if tm.state.activePlayerId = tm.playerIds.1 then tm.playerIds.2 else tm.playerIds.1
  let newTurnNumber := tm.state.turnNumber + 1
  let tm2 : TurnManager :=
    { tm with
        state :=
          { turnNumber := newTurnNumber
            phase := .start
            activePlayerId := newActive
            phaseActionsRemaining := DEFAULT_PHASE_ACTIONS .start } }
  (tm2, { previousTurn := previousTurn, newTurn := newTurnNumber, activePlayerId := newActive })

/-- Result of `nextPhase` / `setPhase`: the updated manager, the returned
event, and the notification lists handed to `notifyPhaseListeners` and
`notifyTurnListeners` during the call. -/
structure NextPhaseResult where
  manager : TurnManager
  event : PhaseChangeEvent
  phaseNotifications : List PhaseChangeEvent
  turnNotifications : List TurnChangeEvent
deriving DecidableEq, Repr

/-- Source method `nextPhase`.  When the transition is `end → start` the
call is redirected through `endTurn` and returns its own event built from
the post-`endTurn` state — note that this early return bypasses
`notifyPhaseListeners` (only `endTurn`'s turn notification is emitted). -/
def TurnManager.nextPhase (tm : TurnManager) : NextPhaseResult :=
  let previousPhase := tm.state.phase
  let newPhase := getNextPhase previousPhase
  if previousPhase = .end_ ∧ newPhase = .start then
    let (tm2, turnEvent) := tm.endTurn
    { manager := tm2
      event :=
        { previousPhase := previousPhase
          newPhase := tm2.state.phase
          turnNumber := tm2.state.turnNumber }
      phaseNotifications := []
      turnNotifications := [turnEvent] }
  else
    let baseActions := DEFAULT_PHASE_ACTIONS newPhase
    let actions :=
      if newPhase = .draw ∧ tm.state.turnNumber = 1 ∧ tm.config.skipFirstDraw then
        { baseActions with canDraw := false }
      else
        baseActions
    let tm2 : TurnManager :=
      { tm with state := { tm.state with phase := newPhase, phaseActionsRemaining := actions } }
    let event : PhaseChangeEvent :=
      { previousPhase := previousPhase
        newPhase := newPhase
        turnNumber := tm2.state.turnNumber }
    { manager := tm2
      event := event
      phaseNotifications := [event]
      turnNotifications := [] }

/-- Source method `setPhase`: validates the phase (always valid for the
closed enum — the `TURN_PHASES.includes` check is kept), resets the
actions to the phase's defaults with no first-turn draw suppression, and
notifies phase listeners. -/
def TurnManager.setPhase (tm : TurnManager) (phase : TurnPhase) : Except String NextPhaseResult :=
  if TURN_PHASES.contains phase then
    let previousPhase := tm.state.phase
    let tm2 : TurnManager :=
      { tm with
          state :=
            { tm.state with
                phase := phase
                phaseActionsRemaining := DEFAULT_PHASE_ACTIONS phase } }
    let event : PhaseChangeEvent :=
      { previousPhase := previousPhase, newPhase := phase, turnNumber := tm2.state.turnNumber }
    .ok
      { manager := tm2
        event := event
        phaseNotifications := [event]
        turnNotifications := [] }
  else
    .error "Invalid phase"

/-- `getState` returns a copy of the state (a value in this model). -/
def TurnManager.getState (tm : TurnManager) : TurnState := tm.state

/-- Source method `serialize` (returns `this.getState()`). -/
def TurnManager.serialize (tm : TurnManager) : TurnState := tm.getState

/-- Source method `restore` (replaces the state with a copy of the given
one; `playerIds` and `config` are untouched). -/
def TurnManager.restore (tm : TurnManager) (state : TurnState) : TurnManager :=
  { tm with state := state }

/-- Iterated `nextPhase`, collecting each call's result (used to state the
phase-cycling executable specification). -/
def TurnManager.nextPhaseTrace (tm : TurnManager) : Nat → List NextPhaseResult
  | 0 => []
  | n + 1 =>
      let r := tm.nextPhase
      r :: r.manager.nextPhaseTrace n

/-! ### LifeManager (`src/managers/LifeManager.ts`) -/

structure LifeChangeEvent where
  playerId : String
  previousLife : Int
  newLife : Int
  change : Int
  source : Option String
deriving DecidableEq, Repr

structure LifeManagerConfig where
  startingLife : Int
  minLife : Int
  maxLife : Option Int
deriving DecidableEq, Repr

/-- Source constant `DEFAULT_CONFIG` of `LifeManager.ts`. -/
def DEFAULT_LIFE_CONFIG : LifeManagerConfig :=
  { startingLife := 20, minLife := 0, maxLife := none }

/-- The `LifeManager` class fields (`lifeTotals` is a `Map<string, number>`;
the listener set is modelled by returning the events handed to
`notifyListeners` as a notification list). -/
structure LifeManager where
  lifeTotals : List (String × Int)
  config : LifeManagerConfig
deriving DecidableEq, Repr

def LifeManager.new (config : LifeManagerConfig) : LifeManager :=
  { lifeTotals := [], config := config }

/-- Source method `initializePlayer`: a direct `Map.set` of the given (or
configured default) starting life — no clamping is applied here. -/
def LifeManager.initializePlayer (lm : LifeManager) (playerId : String)
    (startingLife : Option Int) : LifeManager :=
  let life := startingLife.getD lm.config.startingLife
  { lm with lifeTotals := assocSet lm.lifeTotals playerId life }

def LifeManager.getLife (lm : LifeManager) (playerId : String) : Except String Int :=
  match assocGet lm.lifeTotals playerId with
  | some life => .ok life
  | none => .error s!"Player {playerId} not found"

def LifeManager.hasPlayer (lm : LifeManager) (playerId : String) : Bool :=
  (assocGet lm.lifeTotals playerId).isSome

/-- Private method `clampLife` (takes the config explicitly here). -/
def clampLife (config : LifeManagerConfig) (life : Int) : Int :=
  let clamped := max life config.minLife
  match config.maxLife with
  | some m => min clamped m
  | none => clamped

/-- Result of a life-changing call: the updated manager, the returned
`LifeChangeEvent`, and the events handed to `notifyListeners`. -/
structure LifeOpResult where
  manager : LifeManager
  event : LifeChangeEvent
  notifications : List LifeChangeEvent
deriving DecidableEq, Repr

/-- Source method `setLife`: throws (via `getLife`) when the player is
unknown, clamps the value, stores it, builds the event and notifies. -/
def LifeManager.setLife (lm : LifeManager) (playerId : String) (life : Int)
    (source : Option String) : Except String LifeOpResult :=
  match lm.getLife playerId with
  | .error e => .error e
  | .ok previousLife =>
      let clampedLife := clampLife lm.config life
      let lm2 : LifeManager :=
        { lm with lifeTotals := assocSet lm.lifeTotals playerId clampedLife }
      let event : LifeChangeEvent :=
        { playerId := playerId
          previousLife := previousLife
          newLife := clampedLife
          change := clampedLife - previousLife
          source := source }
      .ok { manager := lm2, event := event, notifications := [event] }

/-- Source method `changeLife`. -/
def LifeManager.changeLife (lm : LifeManager) (playerId : String) (amount : Int)
    (source : Option String) : Except String LifeOpResult :=
  match lm.getLife playerId with
  | .error e => .error e
  | .ok currentLife => lm.setLife playerId (currentLife + amount) source

/-- Source method `dealDamage`: rejects negative amounts before touching
any state. -/
def LifeManager.dealDamage (lm : LifeManager) (playerId : String) (amount : Int)
    (source : Option String) : Except String LifeOpResult :=
  if amount < 0 then
    .error "Damage amount must be non-negative"
  else
    lm.changeLife playerId (-amount) source

/-- Source method `heal`: rejects negative amounts before touching any
state. -/
def LifeManager.heal (lm : LifeManager) (playerId : String) (amount : Int)
    (source : Option String) : Except String LifeOpResult :=
  if amount < 0 then
    .error "Heal amount must be non-negative"
  else
    lm.changeLife playerId amount source

def LifeManager.isAlive (lm : LifeManager) (playerId : String) : Except String Bool :=
  (lm.getLife playerId).map (fun life => lm.config.minLife < life)

def LifeManager.isDead (lm : LifeManager) (playerId : String) : Except String Bool :=
  (lm.isAlive playerId).map (fun alive => !alive)

/-- Source method `resetLife` (a `setLife` to the configured starting life
with source `"reset"`; the source returns `void`, the event is kept here). -/
def LifeManager.resetLife (lm : LifeManager) (playerId : String) : Except String LifeOpResult :=
  lm.setLife playerId lm.config.startingLife (some "reset")

def LifeManager.getPlayerIds (lm : LifeManager) : List String :=
  lm.lifeTotals.map (·.1)

/-- Source method `resetAllLife`: iterates `resetLife` over all player ids
(every id is present, so no call can throw, but the translation keeps the
exception plumbing). -/
def LifeManager.resetAllLife (lm : LifeManager) : Except String LifeManager :=
  lm.getPlayerIds.foldlM (fun acc pid => (acc.resetLife pid).map (·.manager)) lm

/-- `getAllLifeTotals` returns `new Map(this.lifeTotals)` — a copy of the
map of (immutable) numbers, i.e. the same value in this model. -/
def LifeManager.getAllLifeTotals (lm : LifeManager) : List (String × Int) :=
  lm.lifeTotals

/-- Source method `serialize` (`new Map(this.lifeTotals)`). -/
def LifeManager.serialize (lm : LifeManager) : List (String × Int) :=
  lm.lifeTotals

/-- Source method `restore` (`this.lifeTotals = new Map(state)`). -/
def LifeManager.restore (lm : LifeManager) (state : List (String × Int)) : LifeManager :=
  { lm with lifeTotals := state }

def LifeManager.getStartingLife (lm : LifeManager) : Int :=
  lm.config.startingLife

/-! Sequences of public `LifeManager` operations.  An operation that throws
leaves the manager unchanged (every throwing path in the source throws
before the first mutation). -/

inductive LifeOp where
  | initializePlayer (playerId : String) (startingLife : Option Int)
  | setLife (playerId : String) (life : Int)
  | changeLife (playerId : String) (amount : Int)
  | dealDamage (playerId : String) (amount : Int)
  | heal (playerId : String) (amount : Int)
  | resetLife (playerId : String)
  | resetAllLife
deriving DecidableEq, Repr

def LifeManager.runOp (lm : LifeManager) : LifeOp → LifeManager
  | .initializePlayer p s => lm.initializePlayer p s
  | .setLife p v =>
      match lm.setLife p v none with
      | .ok r => r.manager
      | .error _ => lm
  | .changeLife p a =>
      match lm.changeLife p a none with
      | .ok r => r.manager
      | .error _ => lm
  | .dealDamage p a =>
      match lm.dealDamage p a none with
      | .ok r => r.manager
      | .error _ => lm
  | .heal p a =>
      match lm.heal p a none with
      | .ok r => r.manager
      | .error _ => lm
  | .resetLife p =>
      match lm.resetLife p with
      | .ok r => r.manager
      | .error _ => lm
  | .resetAllLife =>
      match lm.resetAllLife with
      | .ok lm2 => lm2
      | .error _ => lm

def LifeManager.runOps (lm : LifeManager) (ops : List LifeOp) : LifeManager :=
  ops.foldl LifeManager.runOp lm

/-- A life value lies within the configured `[minLife, maxLife]` range
(`maxLife = none` means unbounded above). -/
def lifeInRange (config : LifeManagerConfig) (v : Int) : Prop :=
  config.minLife ≤ v ∧ ∀ m, config.maxLife = some m → v ≤ m

/-- Every stored life total lies within the configured range. -/
def LifeManager.lifeInvariant (lm : LifeManager) : Prop :=
  ∀ p v, assocGet lm.lifeTotals p = some v → lifeInRange lm.config v

/-! ### Token definitions (`src/types/tokens.ts`) -/

/-- The five known token kinds (`TokenId` union type); hyphens in the TS
literals become camelCase constructor names. -/
inductive TokenId where
  | damageCounter
  | boostCounter
  | shieldCounter
  | statusStun
  | statusFreeze
deriving DecidableEq, Repr

structure TokenDefinition where
  id : TokenId
  title : String
  image : String
  color : String
  stackable : Bool
  value : Int
deriving DecidableEq, Repr

/-- Source constant `TOKEN_DEFINITIONS` (record keyed by token id; the TS
field `name` is called `title` here to avoid clashing with Lean's `name`).
-/
def TOKEN_DEFINITIONS : TokenId → TokenDefinition
  | .damageCounter =>
      ⟨.damageCounter, "Damage Counter", "images/tokens/damage.png", "#FF4444", true, 1⟩
  | .boostCounter =>
      ⟨.boostCounter, "Boost Counter", "images/tokens/boost.png", "#44FF44", true, 1⟩
  | .shieldCounter =>
      ⟨.shieldCounter, "Shield Counter", "images/tokens/shield.png", "#4444FF", true, 1⟩
  | .statusStun =>
      ⟨.statusStun, "Stun Token", "images/tokens/stun.png", "#FFFF00", false, 1⟩
  | .statusFreeze =>
      ⟨.statusFreeze, "Freeze Token", "images/tokens/freeze.png", "#00FFFF", false, 1⟩

/-- Source function `isValidTokenId`: `id in TOKEN_DEFINITIONS`, which is
true for every value of the closed `TokenId` enum. -/
def isValidTokenId (_ : TokenId) : Bool := true

/-! ### TokenManager (`src/managers/TokenManager.ts`) -/

/-- A `TokenState` plain object: token kind → count. -/
abbrev TokenState := List (TokenId × Int)

structure TokenManagerConfig where
  stackLimit : Int
deriving DecidableEq, Repr

/-- Source constant `DEFAULT_CONFIG` of `TokenManager.ts`. -/
def DEFAULT_TOKEN_CONFIG : TokenManagerConfig := { stackLimit := 99 }

/-- The `TokenManager` class fields (`tokens` is a
`Map<string, TokenState>`). -/
structure TokenManager where
  tokens : List (String × TokenState)
  config : TokenManagerConfig
deriving DecidableEq, Repr

def TokenManager.new (config : TokenManagerConfig) : TokenManager :=
  { tokens := [], config := config }

/-- The per-kind capacity computed inline in `addToken` / `setTokenCount`:
`definition.stackable ? this.config.stackLimit : 1`. -/
def tokenCap (config : TokenManagerConfig) (tokenId : TokenId) : Int :=
  if (TOKEN_DEFINITIONS tokenId).stackable then config.stackLimit else 1

/-- Source method `addToken` (returns the new count; the `isValidTokenId`
guard always passes for the enum).  Creates the card's empty object when
missing, then stores `min(current + count, maxCount)`. -/
def TokenManager.addToken (tm : TokenManager) (cardId : String) (tokenId : TokenId)
    (count : Int) : TokenManager × Int :=
  let cardTokens := (assocGet tm.tokens cardId).getD []
  let currentCount := (assocGet cardTokens tokenId).getD 0
  let maxCount := tokenCap tm.config tokenId
  let newCount := min (currentCount + count) maxCount
  ({ tm with tokens := assocSet tm.tokens cardId (assocSet cardTokens tokenId newCount) },
   newCount)

/-- Source method `removeToken` (returns the new count): no-op returning 0
when the card has no entry; deletes the kind when its count reaches 0 and
deletes the card entry when its object becomes empty. -/
def TokenManager.removeToken (tm : TokenManager) (cardId : String) (tokenId : TokenId)
    (count : Int) : TokenManager × Int :=
  match assocGet tm.tokens cardId with
  | none => (tm, 0)
  | some cardTokens =>
      let currentCount := (assocGet cardTokens tokenId).getD 0
      let newCount := max (currentCount - count) 0
      let cardTokens2 :=
        if newCount = 0 then assocErase cardTokens tokenId
        else assocSet cardTokens tokenId newCount
      let tokens2 :=
        if cardTokens2.isEmpty then assocErase tm.tokens cardId
        else assocSet tm.tokens cardId cardTokens2
      ({ tm with tokens := tokens2 }, newCount)

def TokenManager.getTokenCount (tm : TokenManager) (cardId : String)
    (tokenId : TokenId) : Int :=
  match assocGet tm.tokens cardId with
  | none => 0
  | some cardTokens => (assocGet cardTokens tokenId).getD 0

/-- Source method `setTokenCount`: clamps into `[0, maxCount]`; a clamped
count of 0 delegates to `removeToken` with the current count, otherwise
the clamped value is stored directly (creating the card entry if needed).
-/
def TokenManager.setTokenCount (tm : TokenManager) (cardId : String) (tokenId : TokenId)
    (count : Int) : TokenManager :=
  let maxCount := tokenCap tm.config tokenId
  let clampedCount := min (max count 0) maxCount
  if clampedCount = 0 then
    (tm.removeToken cardId tokenId (tm.getTokenCount cardId tokenId)).1
  else
    let cardTokens := (assocGet tm.tokens cardId).getD []
    { tm with tokens := assocSet tm.tokens cardId (assocSet cardTokens tokenId clampedCount) }

/-- `getTokensOnCard` returns `{ ...this.tokens.get(cardId) ?? {} }` — a
fresh copy of the card's object (the sharing-sensitive variant lives in
the heap model below). -/
def TokenManager.getTokensOnCard (tm : TokenManager) (cardId : String) : TokenState :=
  (assocGet tm.tokens cardId).getD []

def TokenManager.hasTokens (tm : TokenManager) (cardId : String) : Bool :=
  match assocGet tm.tokens cardId with
  | none => false
  | some cardTokens => !cardTokens.isEmpty

def TokenManager.hasToken (tm : TokenManager) (cardId : String) (tokenId : TokenId) : Bool :=
  0 < tm.getTokenCount cardId tokenId

def TokenManager.clearTokens (tm : TokenManager) (cardId : String) : TokenManager :=
  { tm with tokens := assocErase tm.tokens cardId }

def TokenManager.clearAllTokens (tm : TokenManager) : TokenManager :=
  { tm with tokens := [] }

def TokenManager.getCardsWithTokens (tm : TokenManager) : List String :=
  tm.tokens.map (·.1)

/-- Source method `serialize` (`new Map(this.tokens)`: the outer map is
copied, the `TokenState` values are not, which is invisible in this value
model — the heap model below exposes the sharing). -/
def TokenManager.serialize (tm : TokenManager) : List (String × TokenState) :=
  tm.tokens

/-- Source method `restore` (`this.tokens = new Map(state)`). -/
def TokenManager.restore (tm : TokenManager) (state : List (String × TokenState)) :
    TokenManager :=
  { tm with tokens := state }

/-- Source method `getTotalTokenCount` (nested loops summing all counts).
-/
def TokenManager.getTotalTokenCount (tm : TokenManager) : Int :=
  tm.tokens.foldl (fun total p => p.2.foldl (fun acc q => acc + q.2) total) 0

/-! Sequences of public mutating `TokenManager` operations. -/

inductive TokenOp where
  | addToken (cardId : String) (tokenId : TokenId) (count : Int)
  | removeToken (cardId : String) (tokenId : TokenId) (count : Int)
  | setTokenCount (cardId : String) (tokenId : TokenId) (count : Int)
  | clearTokens (cardId : String)
  | clearAllTokens
deriving DecidableEq, Repr

def TokenManager.runOp (tm : TokenManager) : TokenOp → TokenManager
  | .addToken c k n => (tm.addToken c k n).1
  | .removeToken c k n => (tm.removeToken c k n).1
  | .setTokenCount c k n => tm.setTokenCount c k n
  | .clearTokens c => tm.clearTokens c
  | .clearAllTokens => tm.clearAllTokens

def TokenManager.runOps (tm : TokenManager) (ops : List TokenOp) : TokenManager :=
  ops.foldl TokenManager.runOp tm

/-- Every card entry is non-empty and every stored count is positive. -/
def TokenManager.tokenInvariant (tm : TokenManager) : Prop :=
  ∀ c ct, assocGet tm.tokens c = some ct →
    ct ≠ [] ∧ ∀ k n, assocGet ct k = some n → 0 < n

/-! ### Heap model of `TokenManager` object sharing

The value model above cannot distinguish a deep copy from a shared
reference, so the copy/ownership behaviour of `TokenManager` is modelled
once more with the per-card `TokenState` plain objects living on an
explicit heap: `new Map(...)` copies the outer map value (the entries,
holding object references), `{ ...obj }` allocates a fresh object, and
`cardTokens[tokenId] = n` mutates an object in place. -/

abbrev ObjRef := Nat

structure Heap where
  objs : List TokenState
deriving DecidableEq, Repr

def Heap.read (h : Heap) (r : ObjRef) : TokenState :=
  (h.objs.get? r).getD []

def Heap.write (h : Heap) (r : ObjRef) (obj : TokenState) : Heap :=
  ⟨h.objs.set r obj⟩

def Heap.alloc (h : Heap) (obj : TokenState) : Heap × ObjRef :=
  (⟨h.objs ++ [obj]⟩, h.objs.length)

structure TokenManagerH where
  tokens : List (String × ObjRef)
  config : TokenManagerConfig
deriving DecidableEq, Repr

def TokenManagerH.new (config : TokenManagerConfig) : TokenManagerH :=
  { tokens := [], config := config }

/-- Heap-model `addToken`: `this.tokens.set(cardId, {})` allocates a fresh
empty object when the card is missing, and the count update mutates the
card's object in place. -/
def TokenManagerH.addToken (tm : TokenManagerH) (h : Heap) (cardId : String)
    (tokenId : TokenId) (count : Int) : TokenManagerH × Heap × Int :=
  let alloced :=
    match assocGet tm.tokens cardId with
    | some r => (tm, h, r)
    | none =>
        let (h2, r) := h.alloc []
        ({ tm with tokens := assocSet tm.tokens cardId r }, h2, r)
  let (tm2, h2, r) := alloced
  let cardTokens := h2.read r
  let currentCount := (assocGet cardTokens tokenId).getD 0
  let newCount := min (currentCount + count) (tokenCap tm2.config tokenId)
  (tm2, h2.write r (assocSet cardTokens tokenId newCount), newCount)

def TokenManagerH.getTokenCount (tm : TokenManagerH) (h : Heap) (cardId : String)
    (tokenId : TokenId) : Int :=
  match assocGet tm.tokens cardId with
  | none => 0
  | some r => (assocGet (h.read r) tokenId).getD 0

/-- Heap-model `getTokensOnCard`: the spread `{ ...(this.tokens.get(cardId)
?? {}) }` allocates a fresh object holding a copy of the card's fields and
returns a reference to it. -/
def TokenManagerH.getTokensOnCard (tm : TokenManagerH) (h : Heap) (cardId : String) :
    Heap × ObjRef :=
  let copied :=
    match assocGet tm.tokens cardId with
    | some r => h.read r
    | none => []
  h.alloc copied

/-- Heap-model `serialize`: `new Map(this.tokens)` is a fresh map *value*
whose entries hold the very same object references as the internal map. -/
def TokenManagerH.serialize (tm : TokenManagerH) : List (String × ObjRef) :=
  tm.tokens

/-- Heap-model `hasTokens`. -/
def TokenManagerH.hasTokens (tm : TokenManagerH) (h : Heap) (cardId : String) : Bool :=
  match assocGet tm.tokens cardId with
  | none => false
  | some r => !(h.read r).isEmpty

/-- Well-formedness: every reference stored in the manager points into the
heap. -/
def TokenManagerH.wf (tm : TokenManagerH) (h : Heap) : Prop :=
  ∀ c r, assocGet tm.tokens c = some r → r < h.objs.length

/-! ### Shared helper lemmas -/

theorem getNextPhase_start : getNextPhase .start = .untap := rfl

theorem getNextPhase_untap : getNextPhase .untap = .draw := rfl

theorem getNextPhase_draw : getNextPhase .draw = .resource := rfl

theorem getNextPhase_resource : getNextPhase .resource = .main := rfl

theorem getNextPhase_main : getNextPhase .main = .clash := rfl

theorem getNextPhase_clash : getNextPhase .clash = .main2 := rfl

theorem getNextPhase_main2 : getNextPhase .main2 = .end_ := rfl

theorem getNextPhase_end : getNextPhase .end_ = .start := rfl

theorem TokenManager.getTokenCount_eq (tm : TokenManager) (c : String) (k : TokenId) :
    tm.getTokenCount c k = (assocGet ((assocGet tm.tokens c).getD []) k).getD 0 := by
  cases h : assocGet tm.tokens c <;> simp [TokenManager.getTokenCount, h, assocGet]

theorem assocGet_set_self {α β : Type} [DecidableEq α] (l : List (α × β)) (k : α) (v : β) :
    assocGet (assocSet l k v) k = some v := by
  rw [assocGet_set]; simp

theorem assocGet_erase_self {α β : Type} [DecidableEq α] (l : List (α × β)) (k : α) :
    assocGet (assocErase l k) k = none := by
  rw [assocGet_erase]; simp

/-- The count read back for `(cardId, tokenId)` right after `addToken` is
`min(previous + count, cap)`. -/
theorem TokenManager.addToken_count (tm : TokenManager) (c : String) (k : TokenId) (n : Int) :
    ((tm.addToken c k n).1).getTokenCount c k =
      min (tm.getTokenCount c k + n) (tokenCap tm.config k) := by
  rw [TokenManager.getTokenCount_eq tm]
  simp only [TokenManager.addToken, TokenManager.getTokenCount_eq, assocGet_set_self,
    Option.getD_some]

/-- The count read back for `(cardId, tokenId)` right after `removeToken`
with a non-negative count is `max(previous - count, 0)` (reading an erased
kind or card yields 0, matching the clamped value). -/
theorem TokenManager.removeToken_count (tm : TokenManager) (c : String) (k : TokenId)
    (n : Int) (hn : 0 ≤ n) :
    ((tm.removeToken c k n).1).getTokenCount c k =
      max (tm.getTokenCount c k - n) 0 := by
  cases hc : assocGet tm.tokens c with
  | none =>
      simp only [TokenManager.removeToken, hc, TokenManager.getTokenCount_eq,
        Option.getD_none, assocGet]
      omega
  | some ct0 =>
      have hcur : tm.getTokenCount c k = (assocGet ct0 k).getD 0 := by
        rw [TokenManager.getTokenCount_eq, hc]; rfl
      rw [hcur]
      simp only [TokenManager.removeToken, hc]
      by_cases hz : max ((assocGet ct0 k).getD 0 - n) 0 = 0
      · rw [if_pos hz]
        by_cases hE : (assocErase ct0 k).isEmpty
        · rw [if_pos hE, TokenManager.getTokenCount_eq, assocGet_erase_self]
          simp [assocGet, hz]
        · rw [if_neg hE, TokenManager.getTokenCount_eq, assocGet_set_self]
          simp [assocGet_erase_self, hz]
      · rw [if_neg hz, if_neg (by simp [List.isEmpty_iff, assocSet_ne_nil]),
          TokenManager.getTokenCount_eq, assocGet_set_self]
        simp [assocGet_set_self]

/-! ### Claim C1 -/

/-- C1: starting from the initial state of a `TurnManager` built with two
players and the default configuration (turn 1, phase `start`, first player
active), eight `nextPhase` calls visit the phases `untap, draw, resource,
main, clash, main2, end, start` in order; the turn number stays 1 through
the first seven calls and becomes 2 on the eighth, at which point (and
only then) the active player switches to the second player. -/
theorem turnManager_phase_cycle (p1 p2 : String) :
    (TurnManager.new p1 p2 DEFAULT_TURN_CONFIG).state.phase = .start ∧
    (TurnManager.new p1 p2 DEFAULT_TURN_CONFIG).state.turnNumber = 1 ∧
    (TurnManager.new p1 p2 DEFAULT_TURN_CONFIG).state.activePlayerId = p1 ∧
    ((TurnManager.new p1 p2 DEFAULT_TURN_CONFIG).nextPhaseTrace 8).map
        (fun r => r.event.newPhase) =
      [.untap, .draw, .resource, .main, .clash, .main2, .end_, .start] ∧
    ((TurnManager.new p1 p2 DEFAULT_TURN_CONFIG).nextPhaseTrace 8).map
        (fun r => r.manager.state.phase) =
      [.untap, .draw, .resource, .main, .clash, .main2, .end_, .start] ∧
    ((TurnManager.new p1 p2 DEFAULT_TURN_CONFIG).nextPhaseTrace 8).map
        (fun r => r.manager.state.turnNumber) = [1, 1, 1, 1, 1, 1, 1, 2] ∧
    ((TurnManager.new p1 p2 DEFAULT_TURN_CONFIG).nextPhaseTrace 8).map
        (fun r => r.manager.state.activePlayerId) = [p1, p1, p1, p1, p1, p1, p1, p2] := by
  simp [TurnManager.new, TurnManager.nextPhaseTrace, TurnManager.nextPhase,
    TurnManager.endTurn, getNextPhase_start, getNextPhase_untap, getNextPhase_draw,
    getNextPhase_resource, getNextPhase_main, getNextPhase_clash, getNextPhase_main2,
    getNextPhase_end, DEFAULT_TURN_CONFIG, DEFAULT_PHASE_ACTIONS]

/-! ### Claim C2 -/

/-- C2 counterexample: with a stun token already on card `"c"` (pre-add
count 1), `addToken "c" status-stun 1` clamps at the non-stackable cap 1,
so the following `removeToken "c" status-stun 1` drops the count to 0
instead of restoring the pre-add value 1 — `addToken` then `removeToken`
of the same count is not always the identity on the count. -/
theorem addToken_removeToken_roundTrip_cex :
    let tm := ((TokenManager.new DEFAULT_TOKEN_CONFIG).addToken "c" .statusStun 1).1
    tm.getTokenCount "c" .statusStun = 1 ∧
    (((tm.addToken "c" .statusStun 1).1.removeToken "c" .statusStun 1).1.getTokenCount
        "c" .statusStun = 0) ∧
    (0 : Int) ≠ 1 := by
  decide

/-- C2 amended: for every card, kind and count `n ≥ 1`, `addToken` then
`removeToken` of the same count restores the pre-add `getTokenCount`
*provided* the pre-add count is non-negative and the add does not clamp
(pre-add count + n within the kind's cap); and when the card had no entry
at all (so the kind is the only kind the pair touches and the pre-add
count is 0), the pair always returns the count to 0 and leaves
`hasTokens` false. -/
theorem addToken_removeToken_roundTrip_amended (tm : TokenManager) (c : String)
    (k : TokenId) (n : Int) (hn : 1 ≤ n) :
    (0 ≤ tm.getTokenCount c k → tm.getTokenCount c k + n ≤ tokenCap tm.config k →
      ((tm.addToken c k n).1.removeToken c k n).1.getTokenCount c k = tm.getTokenCount c k)
    ∧ (assocGet tm.tokens c = none →
        ((tm.addToken c k n).1.removeToken c k n).1.getTokenCount c k = 0
        ∧ ((tm.addToken c k n).1.removeToken c k n).1.hasTokens c = false) := by
  constructor
  · intro h0 hcap
    rw [TokenManager.removeToken_count _ _ _ _ (by omega),
      TokenManager.addToken_count]
    rw [min_eq_left hcap]
    omega
  · intro hnone
    have hadd : (tm.addToken c k n).1 =
        { tm with tokens := assocSet tm.tokens c [(k, min n (tokenCap tm.config k))] } := by
      simp only [TokenManager.addToken, hnone]
      simp [assocSet, assocGet]
    rw [hadd]
    have hget : assocGet (assocSet tm.tokens c [(k, min n (tokenCap tm.config k))]) c =
        some [(k, min n (tokenCap tm.config k))] := assocGet_set_self ..
    have hget2 : assocGet [(k, min n (tokenCap tm.config k))] k =
        some (min n (tokenCap tm.config k)) := by simp [assocGet]
    simp only [TokenManager.removeToken, hget, hget2, Option.getD_some]
    have hmax : max (min n (tokenCap tm.config k) - n) 0 = 0 := by
      have := min_le_left n (tokenCap tm.config k)
      omega
    rw [hmax]
    simp only [if_pos rfl, ite_true]
    have he : (assocErase [(k, min n (tokenCap tm.config k))] k).isEmpty = true := by
      simp [assocErase]
    rw [he]
    simp only [if_pos rfl, ite_true]
    constructor
    · rw [TokenManager.getTokenCount_eq]
      simp [assocGet_erase_self, assocGet]
    · simp [TokenManager.hasTokens, assocGet_erase_self]

/-- C2 amended witness: a card with 2 boost counters, add 3 then remove 3
restores the count 2; a card with no tokens, add 5 damage then remove 5
leaves count 0 and no tokens on the card. -/
theorem addToken_removeToken_roundTrip_amended_witness :
    let tm0 := TokenManager.new DEFAULT_TOKEN_CONFIG
    let tmw := (tm0.addToken "card" .boostCounter 2).1
    (((tmw.addToken "card" .boostCounter 3).1.removeToken "card" .boostCounter
          3).1.getTokenCount "card" .boostCounter = tmw.getTokenCount "card" .boostCounter)
    ∧ (((tm0.addToken "x" .damageCounter 5).1.removeToken "x" .damageCounter
            5).1.getTokenCount "x" .damageCounter = 0
        ∧ ((tm0.addToken "x" .damageCounter 5).1.removeToken "x" .damageCounter
              5).1.hasTokens "x" = false) := by
  intro tm0 tmw
  exact ⟨(addToken_removeToken_roundTrip_amended tmw "card" .boostCounter 3
            (by decide)).1 (by decide) (by decide),
         (addToken_removeToken_roundTrip_amended tm0 "x" .damageCounter 5
            (by decide)).2 (by decide)⟩


theorem LifeManager.getLife_ok_iff (lm : LifeManager) (p : String) (w : Int) :
    lm.getLife p = .ok w ↔ assocGet lm.lifeTotals p = some w := by
  cases h : assocGet lm.lifeTotals p <;> simp [LifeManager.getLife, h]

theorem clampLife_mem (config : LifeManagerConfig) (v w : Int)
    (hw : lifeInRange config w) : lifeInRange config (clampLife config v) := by
  obtain ⟨h1, h2⟩ := hw
  constructor
  · unfold clampLife
    cases hm : config.maxLife with
    | none => exact le_max_right ..
    | some m =>
        have hmm : config.minLife ≤ m := le_trans h1 (h2 m hm)
        exact le_min (le_max_right ..) hmm
  · intro m' hm'
    unfold clampLife
    rw [hm']
    exact min_le_right ..

theorem LifeManager.setLife_ok_inv (lm : LifeManager) (p : String) (v : Int)
    (src : Option String) (r : LifeOpResult) (h : lm.setLife p v src = .ok r)
    (hinv : lm.lifeInvariant) :
    r.manager.lifeInvariant ∧ r.manager.config = lm.config := by
  unfold LifeManager.setLife at h
  cases hg : lm.getLife p with
  | error e => rw [hg] at h; cases h
  | ok previousLife =>
      rw [hg] at h
      have hw := (LifeManager.getLife_ok_iff lm p previousLife).mp hg
      have hrange := hinv p previousLife hw
      cases h
      constructor
      · intro p' v' hget
        rw [assocGet_set] at hget
        by_cases hpp : p = p'
        · rw [if_pos hpp] at hget
          cases hget
          exact clampLife_mem lm.config v previousLife hrange
        · rw [if_neg hpp] at hget
          exact hinv p' v' hget
      · rfl

theorem LifeManager.changeLife_ok_inv (lm : LifeManager) (p : String) (a : Int)
    (src : Option String) (r : LifeOpResult) (h : lm.changeLife p a src = .ok r)
    (hinv : lm.lifeInvariant) :
    r.manager.lifeInvariant ∧ r.manager.config = lm.config := by
  unfold LifeManager.changeLife at h
  cases hg : lm.getLife p with
  | error e => rw [hg] at h; cases h
  | ok cur =>
      rw [hg] at h
      exact LifeManager.setLife_ok_inv lm p (cur + a) src r h hinv

theorem LifeManager.resetFold_inv (ids : List String) :
    ∀ (lm lm' : LifeManager), lm.lifeInvariant →
      ids.foldlM (fun acc pid => (acc.resetLife pid).map (·.manager)) lm = .ok lm' →
      lm'.lifeInvariant ∧ lm'.config = lm.config := by
  induction ids with
  | nil =>
      intro lm lm' hinv h
      simp only [List.foldlM_nil, pure] at h
      cases h
      exact ⟨hinv, rfl⟩
  | cons pid rest ih =>
      intro lm lm' hinv h
      rw [List.foldlM_cons] at h
      cases hr : lm.resetLife pid with
      | error e => rw [hr] at h; simp [Except.map, Except.bind, Bind.bind] at h
      | ok r =>
          rw [hr] at h
          simp only [Except.map, Bind.bind, Except.bind] at h
          have hstep := LifeManager.setLife_ok_inv lm pid lm.config.startingLife
            (some "reset") r hr hinv
          obtain ⟨hinv2, hcfg2⟩ := hstep
          obtain ⟨hinv3, hcfg3⟩ := ih r.manager lm' hinv2 h
          exact ⟨hinv3, hcfg3.trans hcfg2⟩

/-- Side condition of the amended C3: `initializePlayer` calls store a
value inside the configured range; all other operations clamp on their
own. -/
def LifeOp.initOk (config : LifeManagerConfig) : LifeOp → Prop
  | .initializePlayer _ s => lifeInRange config (s.getD config.startingLife)
  | _ => True

theorem LifeManager.runOp_inv (lm : LifeManager) (op : LifeOp)
    (hinv : lm.lifeInvariant) (hop : LifeOp.initOk lm.config op) :
    (lm.runOp op).lifeInvariant ∧ (lm.runOp op).config = lm.config := by
  cases op with
  | initializePlayer p s =>
      refine ⟨?_, rfl⟩
      intro p' v' hget
      simp only [LifeManager.runOp, LifeManager.initializePlayer] at hget
      rw [assocGet_set] at hget
      by_cases hpp : p = p'
      · rw [if_pos hpp] at hget
        cases hget
        exact hop
      · rw [if_neg hpp] at hget
        exact hinv p' v' hget
  | setLife p v =>
      simp only [LifeManager.runOp]
      cases hs : lm.setLife p v none with
      | error e => exact ⟨hinv, rfl⟩
      | ok r => exact LifeManager.setLife_ok_inv lm p v none r hs hinv
  | changeLife p a =>
      simp only [LifeManager.runOp]
      cases hs : lm.changeLife p a none with
      | error e => exact ⟨hinv, rfl⟩
      | ok r => exact LifeManager.changeLife_ok_inv lm p a none r hs hinv
  | dealDamage p a =>
      simp only [LifeManager.runOp]
      cases hs : lm.dealDamage p a none with
      | error e => exact ⟨hinv, rfl⟩
      | ok r =>
          unfold LifeManager.dealDamage at hs
          by_cases hneg : a < 0
          · rw [if_pos hneg] at hs; cases hs
          · rw [if_neg hneg] at hs
            exact LifeManager.changeLife_ok_inv lm p (-a) none r hs hinv
  | heal p a =>
      simp only [LifeManager.runOp]
      cases hs : lm.heal p a none with
      | error e => exact ⟨hinv, rfl⟩
      | ok r =>
          unfold LifeManager.heal at hs
          by_cases hneg : a < 0
          · rw [if_pos hneg] at hs; cases hs
          · rw [if_neg hneg] at hs
            exact LifeManager.changeLife_ok_inv lm p a none r hs hinv
  | resetLife p =>
      simp only [LifeManager.runOp]
      cases hs : lm.resetLife p with
      | error e => exact ⟨hinv, rfl⟩
      | ok r =>
          exact LifeManager.setLife_ok_inv lm p lm.config.startingLife (some "reset") r hs hinv
  | resetAllLife =>
      simp only [LifeManager.runOp]
      cases hs : lm.resetAllLife with
      | error e => exact ⟨hinv, rfl⟩
      | ok lm2 =>
          unfold LifeManager.resetAllLife at hs
          exact LifeManager.resetFold_inv lm.getPlayerIds lm lm2 hinv hs

/-! ### Claim C3 -/

/-- C3 counterexample: `initializePlayer` stores its argument with a
direct `Map.set` and no clamping, so `initializePlayer "p" (-5)` on a
default-configured manager (minLife 0) stores -5, outside
`[minLife, maxLife]` — the range invariant does not survive every
sequence of the listed public operations. -/
theorem initializePlayer_unclamped_cex :
    ¬ ((LifeManager.new DEFAULT_LIFE_CONFIG).runOps
        [.initializePlayer "p" (some (-5))]).lifeInvariant := by
  intro h
  have hv := h "p" (-5) (by decide)
  obtain ⟨h1, _⟩ := hv
  revert h1
  decide

/-- C3 amended: for every LifeManager and every sequence of the public
operations in which each `initializePlayer` call supplies a starting life
(explicit or the configured default) within `[minLife, maxLife]`, every
stored life total lies within `[minLife, maxLife]` (maxLife unbounded
when configured as none); the clamping operations (setLife, changeLife,
dealDamage, heal, resetLife, resetAllLife) need no side condition. -/
theorem life_totals_in_range_amended (config : LifeManagerConfig) (ops : List LifeOp)
    (hops : ∀ op ∈ ops, LifeOp.initOk config op) :
    ((LifeManager.new config).runOps ops).lifeInvariant := by
  have main : ∀ (l : List LifeOp) (lm : LifeManager), lm.config = config →
      lm.lifeInvariant → (∀ op ∈ l, LifeOp.initOk config op) →
      (lm.runOps l).lifeInvariant ∧ (lm.runOps l).config = config := by
    intro l
    induction l with
    | nil => intro lm h1 h2 _; exact ⟨h2, h1⟩
    | cons op rest ih =>
        intro lm h1 h2 hl
        have hop : LifeOp.initOk lm.config op := by
          rw [h1]; exact hl op (by simp)
        have hstep := LifeManager.runOp_inv lm op h2 hop
        have hrec := ih (lm.runOp op) (hstep.2.trans h1) hstep.1
          (fun o ho => hl o (by simp [ho]))
        simpa [LifeManager.runOps, List.foldl_cons] using hrec
  refine (main ops (LifeManager.new config) rfl ?_ hops).1
  intro p v hget
  simp [LifeManager.new, assocGet] at hget

/-- C3 amended witness: initialize at 20 (in range), deal 25 damage and
heal 3 — all stored totals stay within the default range. -/
theorem life_totals_in_range_amended_witness :
    ((LifeManager.new DEFAULT_LIFE_CONFIG).runOps
        [.initializePlayer "p" (some 20), .dealDamage "p" 25, .heal "p" 3]).lifeInvariant :=
  life_totals_in_range_amended DEFAULT_LIFE_CONFIG
    [.initializePlayer "p" (some 20), .dealDamage "p" 25, .heal "p" 3]
    (by
      intro op hop
      simp only [List.mem_cons, List.not_mem_nil, or_false] at hop
      rcases hop with rfl | rfl | rfl <;>
        simp [LifeOp.initOk, lifeInRange, DEFAULT_LIFE_CONFIG])


theorem tokenCap_pos (config : TokenManagerConfig) (k : TokenId)
    (h : 1 ≤ config.stackLimit) : 1 ≤ tokenCap config k := by
  unfold tokenCap
  split <;> omega

theorem TokenManager.current_nonneg (tm : TokenManager) (c : String) (k : TokenId)
    (hinv : tm.tokenInvariant) :
    0 ≤ (assocGet ((assocGet tm.tokens c).getD []) k).getD 0 := by
  cases hc : assocGet tm.tokens c with
  | none => simp [assocGet]
  | some ct0 =>
      cases hk : assocGet ct0 k with
      | none => simp [hk]
      | some m =>
          have := (hinv c ct0 hc).2 k m hk
          simp [hk]
          omega

theorem TokenManager.setEntry_inv (tm : TokenManager) (c : String) (k : TokenId) (v : Int)
    (hv : 0 < v) (hinv : tm.tokenInvariant) :
    TokenManager.tokenInvariant
      { tm with
          tokens := assocSet tm.tokens c (assocSet ((assocGet tm.tokens c).getD []) k v) } := by
  intro c' ct' h'
  dsimp only at h'
  rw [assocGet_set] at h'
  by_cases hcc : c = c'
  · rw [if_pos hcc] at h'
    cases h'
    refine ⟨assocSet_ne_nil _ _ _, ?_⟩
    intro k' n' hk'
    rw [assocGet_set] at hk'
    by_cases hkk : k = k'
    · rw [if_pos hkk] at hk'
      cases hk'
      exact hv
    · rw [if_neg hkk] at hk'
      cases hc : assocGet tm.tokens c with
      | none => rw [hc] at hk'; simp [assocGet] at hk'
      | some ct0 =>
          rw [hc] at hk'
          exact (hinv c ct0 hc).2 k' n' hk'
  · rw [if_neg hcc] at h'
    exact hinv c' ct' h'

theorem TokenManager.addToken_inv (tm : TokenManager) (c : String) (k : TokenId) (n : Int)
    (hstack : 1 ≤ tm.config.stackLimit) (hn : 1 ≤ n) (hinv : tm.tokenInvariant) :
    ((tm.addToken c k n).1).tokenInvariant := by
  have hcur := TokenManager.current_nonneg tm c k hinv
  have hcap := tokenCap_pos tm.config k hstack
  have hpos :
      0 < min ((assocGet ((assocGet tm.tokens c).getD []) k).getD 0 + n)
          (tokenCap tm.config k) := by
    have : (1 : Int) ≤ (assocGet ((assocGet tm.tokens c).getD []) k).getD 0 + n := by omega
    omega
  exact TokenManager.setEntry_inv tm c k _ hpos hinv

theorem TokenManager.removeToken_inv (tm : TokenManager) (c : String) (k : TokenId)
    (n : Int) (hinv : tm.tokenInvariant) :
    ((tm.removeToken c k n).1).tokenInvariant := by
  cases hc : assocGet tm.tokens c with
  | none => simpa [TokenManager.removeToken, hc] using hinv
  | some ct0 =>
      obtain ⟨hne0, hpos0⟩ := hinv c ct0 hc
      simp only [TokenManager.removeToken, hc]
      by_cases hz : max ((assocGet ct0 k).getD 0 - n) 0 = 0
      · rw [if_pos hz]
        by_cases hE : (assocErase ct0 k).isEmpty
        · rw [if_pos hE]
          intro c' ct' h'
          dsimp only at h'
          rw [assocGet_erase] at h'
          by_cases hcc : c = c'
          · rw [if_pos hcc] at h'; cases h'
          · rw [if_neg hcc] at h'
            exact hinv c' ct' h'
        · rw [if_neg hE]
          intro c' ct' h'
          dsimp only at h'
          rw [assocGet_set] at h'
          by_cases hcc : c = c'
          · rw [if_pos hcc] at h'
            cases h'
            refine ⟨by simpa [List.isEmpty_iff] using hE, ?_⟩
            intro k' n' hk'
            rw [assocGet_erase] at hk'
            by_cases hkk : k = k'
            · rw [if_pos hkk] at hk'; cases hk'
            · rw [if_neg hkk] at hk'
              exact hpos0 k' n' hk'
          · rw [if_neg hcc] at h'
            exact hinv c' ct' h'
      · rw [if_neg hz, if_neg (by simp [List.isEmpty_iff, assocSet_ne_nil])]
        intro c' ct' h'
        dsimp only at h'
        rw [assocGet_set] at h'
        by_cases hcc : c = c'
        · rw [if_pos hcc] at h'
          cases h'
          refine ⟨assocSet_ne_nil _ _ _, ?_⟩
          intro k' n' hk'
          rw [assocGet_set] at hk'
          by_cases hkk : k = k'
          · rw [if_pos hkk] at hk'
            cases hk'
            omega
          · rw [if_neg hkk] at hk'
            exact hpos0 k' n' hk'
        · rw [if_neg hcc] at h'
          exact hinv c' ct' h'

theorem TokenManager.setTokenCount_inv (tm : TokenManager) (c : String) (k : TokenId)
    (n : Int) (hstack : 1 ≤ tm.config.stackLimit) (hinv : tm.tokenInvariant) :
    (tm.setTokenCount c k n).tokenInvariant := by
  have hcap := tokenCap_pos tm.config k hstack
  unfold TokenManager.setTokenCount
  by_cases hz : min (max n 0) (tokenCap tm.config k) = 0
  · rw [if_pos hz]
    exact TokenManager.removeToken_inv tm c k _ hinv
  · rw [if_neg hz]
    have h0 : 0 < min (max n 0) (tokenCap tm.config k) := by
      have h1 : (0 : Int) ≤ max n 0 := le_max_right ..
      omega
    exact TokenManager.setEntry_inv tm c k _ h0 hinv

/-- Side condition of the amended C4: `addToken` counts are at least 1. -/
def TokenOp.countOk : TokenOp → Prop
  | .addToken _ _ n => 1 ≤ n
  | _ => True

theorem TokenManager.runOp_token_inv (tm : TokenManager) (op : TokenOp)
    (hstack : 1 ≤ tm.config.stackLimit) (hinv : tm.tokenInvariant)
    (hop : op.countOk) :
    (tm.runOp op).tokenInvariant ∧ (tm.runOp op).config = tm.config := by
  cases op with
  | addToken c k n =>
      refine ⟨TokenManager.addToken_inv tm c k n hstack hop hinv, ?_⟩
      simp [TokenManager.runOp, TokenManager.addToken]
  | removeToken c k n =>
      refine ⟨TokenManager.removeToken_inv tm c k n hinv, ?_⟩
      simp only [TokenManager.runOp, TokenManager.removeToken]
      cases hc : assocGet tm.tokens c <;> simp [hc]
  | setTokenCount c k n =>
      refine ⟨TokenManager.setTokenCount_inv tm c k n hstack hinv, ?_⟩
      simp only [TokenManager.runOp, TokenManager.setTokenCount]
      split
      · simp only [TokenManager.removeToken]
        cases hc : assocGet tm.tokens c <;> simp [hc]
      · rfl
  | clearTokens c =>
      refine ⟨?_, rfl⟩
      intro c' ct' h'
      simp only [TokenManager.runOp, TokenManager.clearTokens] at h'
      rw [assocGet_erase] at h'
      by_cases hcc : c = c'
      · rw [if_pos hcc] at h'; cases h'
      · rw [if_neg hcc] at h'
        exact hinv c' ct' h'
  | clearAllTokens =>
      refine ⟨?_, rfl⟩
      intro c' ct' h'
      simp [TokenManager.runOp, TokenManager.clearAllTokens, assocGet] at h'

/-! ### Claim C4 -/

/-- C4 counterexample: `addToken(card, kind, 0)` creates the card's entry
and stores `min(0 + 0, cap) = 0` for the kind, so the mapping holds a
card whose only kind has count 0 — the positive-count invariant does not
survive every argument of the public mutating operations. -/
theorem addToken_zero_count_cex :
    ¬ ((TokenManager.new DEFAULT_TOKEN_CONFIG).runOps
        [.addToken "c" .statusStun 0]).tokenInvariant := by
  intro h
  have hv := (h "c" [(.statusStun, 0)] (by decide)).2 .statusStun 0 (by decide)
  revert hv
  decide

/-- C4 amended: for every TokenManager whose `stackLimit` is at least 1
and every sequence of the public mutating operations in which every
`addToken` call passes a count of at least 1 (the TS default is 1),
every card present in the mapping has a non-empty kind map in which every
count is positive; kinds are deleted on reaching 0 and card entries are
deleted as soon as their kind map empties. -/
theorem token_entries_positive_amended (config : TokenManagerConfig) (hstack : 1 ≤ config.stackLimit)
    (ops : List TokenOp) (hops : ∀ op ∈ ops, op.countOk) :
    ((TokenManager.new config).runOps ops).tokenInvariant := by
  have main : ∀ (l : List TokenOp) (tm : TokenManager), tm.config = config →
      tm.tokenInvariant → (∀ op ∈ l, TokenOp.countOk op) →
      (tm.runOps l).tokenInvariant ∧ (tm.runOps l).config = config := by
    intro l
    induction l with
    | nil => intro tm h1 h2 _; exact ⟨h2, h1⟩
    | cons op rest ih =>
        intro tm h1 h2 hl
        have hstack' : 1 ≤ tm.config.stackLimit := by rw [h1]; exact hstack
        have hstep := TokenManager.runOp_token_inv tm op hstack' h2 (hl op (by simp))
        have hrec := ih (tm.runOp op) (hstep.2.trans h1) hstep.1
          (fun o ho => hl o (by simp [ho]))
        simpa [TokenManager.runOps, List.foldl_cons] using hrec
  refine (main ops (TokenManager.new config) rfl ?_ hops).1
  intro c ct hget
  simp [TokenManager.new, assocGet] at hget

/-- C4 amended witness: add 3 damage, set boost to 2, remove 5 damage
(deleting the damage kind), clear another card — the invariant holds. -/
theorem token_entries_positive_amended_witness :
    ((TokenManager.new DEFAULT_TOKEN_CONFIG).runOps
        [.addToken "c" .damageCounter 3, .setTokenCount "c" .boostCounter 2,
         .removeToken "c" .damageCounter 5, .clearTokens "d"]).tokenInvariant :=
  token_entries_positive_amended DEFAULT_TOKEN_CONFIG (by decide)
    [.addToken "c" .damageCounter 3, .setTokenCount "c" .boostCounter 2,
     .removeToken "c" .damageCounter 5, .clearTokens "d"]
    (by
      intro op hop
      simp only [List.mem_cons, List.not_mem_nil, or_false] at hop
      rcases hop with rfl | rfl | rfl | rfl <;> simp [TokenOp.countOk])


/-- Iterated `nextPhase`, keeping only the final manager. -/
def TurnManager.stepPhases (tm : TurnManager) : Nat → TurnManager
  | 0 => tm
  | n + 1 => (tm.nextPhase).manager.stepPhases n

/-! ### Claim C5 -/

/-- C5: with skip-first-draw enabled and turnNumber 1, entering the draw
phase via `nextPhase` (i.e. from `untap`) forces `canDraw` false while the
other flags keep the draw defaults; `setPhase draw` applies no such
suppression (the full draw defaults, `canDraw` true, are installed); and
on any turn number greater than 1, entering draw via `nextPhase` leaves
the draw defaults intact (`canDraw` true). -/
theorem draw_entry_skip_first_draw (tm : TurnManager) :
    (tm.config.skipFirstDraw = true → tm.state.turnNumber = 1 → tm.state.phase = .untap →
      (tm.nextPhase).manager.state.phase = .draw ∧
      (tm.nextPhase).manager.state.phaseActionsRemaining =
        { DEFAULT_PHASE_ACTIONS .draw with canDraw := false })
    ∧ (∃ r, tm.setPhase .draw = .ok r ∧
        r.manager.state.phase = .draw ∧
        r.manager.state.phaseActionsRemaining = DEFAULT_PHASE_ACTIONS .draw)
    ∧ (1 < tm.state.turnNumber → tm.state.phase = .untap →
      (tm.nextPhase).manager.state.phase = .draw ∧
      (tm.nextPhase).manager.state.phaseActionsRemaining = DEFAULT_PHASE_ACTIONS .draw) := by
  refine ⟨?_, ?_, ?_⟩
  · intro hskip hturn hphase
    simp [TurnManager.nextPhase, hphase, hturn, hskip, getNextPhase_untap,
      DEFAULT_PHASE_ACTIONS]
  · exact ⟨_, rfl, rfl, rfl⟩
  · intro hturn hphase
    have hne : ¬ tm.state.turnNumber = 1 := by omega
    simp [TurnManager.nextPhase, hphase, hne, getNextPhase_untap]

/-- C5 witness: a manager in untap on turn 1 with the default (skipping)
config, the same manager for `setPhase`, and a turn-2 copy for the
third conjunct. -/
theorem draw_entry_skip_first_draw_witness :
    let st : TurnState :=
      { turnNumber := 1, phase := .untap, activePlayerId := "p1",
        phaseActionsRemaining := DEFAULT_PHASE_ACTIONS .untap }
    let tmw : TurnManager :=
      { state := st, playerIds := ("p1", "p2"), config := DEFAULT_TURN_CONFIG }
    let tm2 : TurnManager := { tmw with state := { st with turnNumber := 2 } }
    ((tmw.nextPhase).manager.state.phase = .draw ∧
      (tmw.nextPhase).manager.state.phaseActionsRemaining =
        { DEFAULT_PHASE_ACTIONS .draw with canDraw := false })
    ∧ (∃ r, tmw.setPhase .draw = .ok r ∧
        r.manager.state.phase = .draw ∧
        r.manager.state.phaseActionsRemaining = DEFAULT_PHASE_ACTIONS .draw)
    ∧ ((tm2.nextPhase).manager.state.phase = .draw ∧
      (tm2.nextPhase).manager.state.phaseActionsRemaining = DEFAULT_PHASE_ACTIONS .draw) := by
  intro st tmw tm2
  exact ⟨(draw_entry_skip_first_draw tmw).1 (by decide) (by decide) (by decide),
    (draw_entry_skip_first_draw tmw).2.1,
    (draw_entry_skip_first_draw tm2).2.2 (by decide) (by decide)⟩

/-! ### Claim C6 -/

/-- C6 counterexample: after seven `nextPhase` calls the manager sits in
the `end` phase; the eighth call (the end-of-turn redirection) returns the
post-end-turn event (`newPhase` start, turn 2) but hands *no* event to
`notifyPhaseListeners` (only `endTurn`'s turn notification fires), so
phase listeners are not notified on that call. -/
theorem endTurn_phase_notification_skipped_cex :
    let tm7 := (TurnManager.new "p1" "p2" DEFAULT_TURN_CONFIG).stepPhases 7
    tm7.state.phase = .end_ ∧
    (tm7.nextPhase).phaseNotifications = [] ∧
    (tm7.nextPhase).turnNotifications.length = 1 ∧
    (tm7.nextPhase).event =
      { previousPhase := .end_, newPhase := .start, turnNumber := 2 } := by
  decide

/-- C6 amended: every `nextPhase` call from a phase other than `end`
delivers exactly its returned event to the phase listeners (and no turn
notification); the call from `end` delivers *no* phase-change
notification — only `endTurn`'s turn-change notification — while its
returned event still reports `previousPhase` end, `newPhase` start and
the incremented turn number. -/
theorem nextPhase_notification_amended (tm : TurnManager) :
    (tm.state.phase ≠ .end_ →
      (tm.nextPhase).phaseNotifications = [(tm.nextPhase).event] ∧
      (tm.nextPhase).turnNotifications = [])
    ∧ (tm.state.phase = .end_ →
      (tm.nextPhase).phaseNotifications = [] ∧
      (tm.nextPhase).turnNotifications = [(tm.endTurn).2] ∧
      (tm.nextPhase).event.previousPhase = .end_ ∧
      (tm.nextPhase).event.newPhase = .start ∧
      (tm.nextPhase).event.turnNumber = tm.state.turnNumber + 1) := by
  constructor
  · intro hne
    have hcond : ¬ (tm.state.phase = .end_ ∧ getNextPhase tm.state.phase = .start) := by
      intro hc; exact hne hc.1
    simp only [TurnManager.nextPhase]
    rw [if_neg hcond]
    exact ⟨rfl, rfl⟩
  · intro he
    simp [TurnManager.nextPhase, he, getNextPhase_end, TurnManager.endTurn]

/-- C6 amended witness: a fresh manager (phase start) for the ordinary
branch and a manager parked in the end phase for the end-of-turn branch.
-/
theorem nextPhase_notification_amended_witness :
    let tmE : TurnManager :=
      { state :=
          { turnNumber := 1, phase := .end_, activePlayerId := "p1",
            phaseActionsRemaining := DEFAULT_PHASE_ACTIONS .end_ },
        playerIds := ("p1", "p2"), config := DEFAULT_TURN_CONFIG }
    let tmS := TurnManager.new "p1" "p2" DEFAULT_TURN_CONFIG
    ((tmS.nextPhase).phaseNotifications = [(tmS.nextPhase).event] ∧
      (tmS.nextPhase).turnNotifications = [])
    ∧ ((tmE.nextPhase).phaseNotifications = [] ∧
      (tmE.nextPhase).turnNotifications = [(tmE.endTurn).2] ∧
      (tmE.nextPhase).event.previousPhase = .end_ ∧
      (tmE.nextPhase).event.newPhase = .start ∧
      (tmE.nextPhase).event.turnNumber = tmE.state.turnNumber + 1) := by
  intro tmE tmS
  exact ⟨(nextPhase_notification_amended tmS).1 (by decide),
    (nextPhase_notification_amended tmE).2 (by decide)⟩

/-! ### Claim C7 -/

/-- C7: for an initialized player, `dealDamage` and `heal` with a negative
amount fail with the invalid-argument error and leave the manager (hence
the whole player-to-life mapping) unchanged; with a non-negative amount
they are exactly `changeLife` of `-amount` and `+amount`. -/
theorem dealDamage_heal_reject_negative (lm : LifeManager) (p : String) (amount : Int)
    (src : Option String) (_hp : lm.hasPlayer p = true) :
    (amount < 0 →
      lm.dealDamage p amount src = .error "Damage amount must be non-negative" ∧
      lm.heal p amount src = .error "Heal amount must be non-negative" ∧
      lm.runOp (.dealDamage p amount) = lm ∧
      lm.runOp (.heal p amount) = lm)
    ∧ (0 ≤ amount →
      lm.dealDamage p amount src = lm.changeLife p (-amount) src ∧
      lm.heal p amount src = lm.changeLife p amount src) := by
  constructor
  · intro hneg
    refine ⟨?_, ?_, ?_, ?_⟩
    · simp [LifeManager.dealDamage, hneg]
    · simp [LifeManager.heal, hneg]
    · simp [LifeManager.runOp, LifeManager.dealDamage, hneg]
    · simp [LifeManager.runOp, LifeManager.heal, hneg]
  · intro hpos
    have hnot : ¬ amount < 0 := by omega
    exact ⟨by simp [LifeManager.dealDamage, hnot], by simp [LifeManager.heal, hnot]⟩

/-- C7 witness: a default-initialized player, damage/heal of -3 rejected
with the manager unchanged, damage/heal of 4 equal to the changeLife
calls. -/
theorem dealDamage_heal_reject_negative_witness :
    let lmw := (LifeManager.new DEFAULT_LIFE_CONFIG).initializePlayer "p" none
    (lmw.dealDamage "p" (-3) none = .error "Damage amount must be non-negative" ∧
      lmw.heal "p" (-3) none = .error "Heal amount must be non-negative" ∧
      lmw.runOp (.dealDamage "p" (-3)) = lmw ∧
      lmw.runOp (.heal "p" (-3)) = lmw)
    ∧ (lmw.dealDamage "p" 4 none = lmw.changeLife "p" (-4) none ∧
      lmw.heal "p" 4 none = lmw.changeLife "p" 4 none) := by
  intro lmw
  exact ⟨(dealDamage_heal_reject_negative lmw "p" (-3) none (by decide)).1 (by decide),
    (dealDamage_heal_reject_negative lmw "p" 4 none (by decide)).2 (by decide)⟩


/-! ### Claim C8 -/

/-- C8: for each manager, restoring a freshly constructed instance (any
constructor arguments) from `serialize()` of an arbitrary state reproduces
every listed getter: turn number, phase, active player and action flags
for the TurnManager (plus the whole `getState`); life totals, presence and
player-id list for the LifeManager; token counts, `hasTokens`,
`getTokensOnCard`, `getTotalTokenCount` and `getCardsWithTokens` for the
TokenManager.  This covers every state reachable by any operation
sequence, since it holds for all states. -/
theorem serialize_restore_roundTrip :
    (∀ (tm : TurnManager) (q1 q2 : String) (cfg : TurnManagerConfig),
      ((TurnManager.new q1 q2 cfg).restore tm.serialize).getTurnNumber = tm.getTurnNumber ∧
      ((TurnManager.new q1 q2 cfg).restore tm.serialize).getCurrentPhase =
        tm.getCurrentPhase ∧
      ((TurnManager.new q1 q2 cfg).restore tm.serialize).getActivePlayerId =
        tm.getActivePlayerId ∧
      ((TurnManager.new q1 q2 cfg).restore tm.serialize).getPhaseActions =
        tm.getPhaseActions ∧
      ((TurnManager.new q1 q2 cfg).restore tm.serialize).getState = tm.getState)
    ∧ (∀ (lm : LifeManager) (cfg : LifeManagerConfig) (p : String),
      ((LifeManager.new cfg).restore lm.serialize).getLife p = lm.getLife p ∧
      ((LifeManager.new cfg).restore lm.serialize).hasPlayer p = lm.hasPlayer p ∧
      ((LifeManager.new cfg).restore lm.serialize).getAllLifeTotals = lm.getAllLifeTotals ∧
      ((LifeManager.new cfg).restore lm.serialize).getPlayerIds = lm.getPlayerIds)
    ∧ (∀ (tk : TokenManager) (cfg : TokenManagerConfig) (c : String) (k : TokenId),
      ((TokenManager.new cfg).restore tk.serialize).getTokenCount c k =
        tk.getTokenCount c k ∧
      ((TokenManager.new cfg).restore tk.serialize).hasTokens c = tk.hasTokens c ∧
      ((TokenManager.new cfg).restore tk.serialize).getTokensOnCard c =
        tk.getTokensOnCard c ∧
      ((TokenManager.new cfg).restore tk.serialize).getTotalTokenCount =
        tk.getTotalTokenCount ∧
      ((TokenManager.new cfg).restore tk.serialize).getCardsWithTokens =
        tk.getCardsWithTokens) :=
  ⟨fun _ _ _ _ => ⟨rfl, rfl, rfl, rfl, rfl⟩,
   fun _ _ _ => ⟨rfl, rfl, rfl, rfl⟩,
   fun _ _ _ _ => ⟨rfl, rfl, rfl, rfl, rfl⟩⟩

/-- Writing one heap object leaves every other object unchanged. -/
theorem Heap.read_write_ne (h : Heap) (r r' : ObjRef) (obj : TokenState)
    (hne : r' ≠ r) : (h.write r obj).read r' = h.read r' := by
  unfold Heap.read Heap.write
  rw [List.get?_set_ne obj _ (fun he => hne he.symm)]

/-! ### Claim C9 -/

/-- C9 counterexample: `TokenManager.serialize` returns `new Map(tokens)`,
which shares the per-card `TokenState` objects with the manager; after
adding 3 damage counters to a card, writing through the object reference
found in the serialized map changes the count the manager itself reports
from 3 to 50 — the serialized value is not an independent copy. -/
theorem serialize_shared_reference_cex :
    let h0 : Heap := ⟨[]⟩
    let tm0 := TokenManagerH.new DEFAULT_TOKEN_CONFIG
    let step := tm0.addToken h0 "c" .damageCounter 3
    let tm1 := step.1
    let h1 := step.2.1
    let r := (assocGet tm1.serialize "c").getD 0
    let h2 := h1.write r [(.damageCounter, 50)]
    tm1.getTokenCount h1 "c" .damageCounter = 3 ∧
    tm1.getTokenCount h2 "c" .damageCounter = 50 ∧
    (3 : Int) ≠ 50 := by
  decide

/-- C9 amended: `getTokensOnCard` allocates a fresh object (the spread
copy), so writing the returned object never changes any token count the
manager reports; `TokenManager.serialize`, by contrast, returns a map
holding the manager's own object references (`serialize = tokens`), so
the per-card records are shared and writable by the caller.  The other
listed accessors (`getState`, `getPhaseActions`, `getAllLifeTotals`,
`LifeManager.serialize`) copy structures whose fields are immutable
primitives, which the value model renders as plain values. -/
theorem getTokensOnCard_independent_copy (tm : TokenManagerH) (h : Heap) (c : String)
    (hwf : tm.wf h) :
    tm.serialize = tm.tokens
    ∧ ∀ (obj : TokenState) (c2 : String) (k : TokenId),
      tm.getTokenCount
          (Heap.write (tm.getTokensOnCard h c).1 (tm.getTokensOnCard h c).2 obj) c2 k
        = tm.getTokenCount (tm.getTokensOnCard h c).1 c2 k := by
  refine ⟨rfl, ?_⟩
  intro obj c2 k
  cases hc2 : assocGet tm.tokens c2 with
  | none => simp [TokenManagerH.getTokenCount, hc2]
  | some r' =>
      have hlt : r' < h.objs.length := hwf c2 r' hc2
      simp only [TokenManagerH.getTokenCount, hc2, TokenManagerH.getTokensOnCard,
        Heap.alloc]
      rw [Heap.read_write_ne _ _ _ _ (Nat.ne_of_lt hlt)]

/-- C9 amended witness: one card with 3 damage counters on the heap;
writing the fresh object returned by `getTokensOnCard` leaves the
manager's damage count unchanged. -/
theorem getTokensOnCard_independent_copy_witness :
    let tmW : TokenManagerH := { tokens := [("c", 0)], config := DEFAULT_TOKEN_CONFIG }
    let hW : Heap := ⟨[[(.damageCounter, 3)]]⟩
    tmW.serialize = tmW.tokens ∧
    tmW.getTokenCount
        (Heap.write (tmW.getTokensOnCard hW "c").1 (tmW.getTokensOnCard hW "c").2
          [(.boostCounter, 7)]) "c" .damageCounter
      = tmW.getTokenCount (tmW.getTokensOnCard hW "c").1 "c" .damageCounter := by
  intro tmW hW
  have hwf : tmW.wf hW := by
    intro c r hget
    simp only [assocGet] at hget
    split at hget
    · cases hget; decide
    · cases hget
  exact ⟨(getTokensOnCard_independent_copy tmW hW "c" hwf).1,
    (getTokensOnCard_independent_copy tmW hW "c" hwf).2 [(.boostCounter, 7)]
      "c" .damageCounter⟩

/-! ### Claim C10 -/

/-- C10: for every initialized player, `setLife` (and hence `changeLife`,
`dealDamage`, `heal`, which all route through it) always returns an event
and hands exactly that event to the listener loop, even when the clamped
new value equals the previous value — the change field is then 0 and
`newLife = previousLife`; in particular `dealDamage` on a player already
at `minLife` (with a well-formed range, `minLife ≤ maxLife` when bounded)
emits an event with change 0. -/
theorem setLife_always_emits :
    (∀ (lm : LifeManager) (p : String) (v : Int) (src : Option String) (w : Int),
      assocGet lm.lifeTotals p = some w →
      ∃ r, lm.setLife p v src = .ok r ∧
        r.notifications = [r.event] ∧
        r.event.previousLife = w ∧
        r.event.newLife = clampLife lm.config v ∧
        r.event.change = r.event.newLife - r.event.previousLife ∧
        (r.event.newLife = r.event.previousLife → r.event.change = 0))
    ∧ (∀ (lm : LifeManager) (p : String) (amount : Int) (src : Option String),
      0 ≤ amount →
      assocGet lm.lifeTotals p = some lm.config.minLife →
      (∀ m, lm.config.maxLife = some m → lm.config.minLife ≤ m) →
      ∃ r, lm.dealDamage p amount src = .ok r ∧
        r.notifications = [r.event] ∧ r.event.change = 0 ∧
        r.event.newLife = lm.config.minLife ∧
        r.event.previousLife = lm.config.minLife) := by
  constructor
  · intro lm p v src w h
    have hg : lm.getLife p = .ok w := (LifeManager.getLife_ok_iff lm p w).mpr h
    refine ⟨⟨{ lm with lifeTotals := assocSet lm.lifeTotals p (clampLife lm.config v) },
        ⟨p, w, clampLife lm.config v, clampLife lm.config v - w, src⟩,
        [⟨p, w, clampLife lm.config v, clampLife lm.config v - w, src⟩]⟩,
      ?_, rfl, rfl, rfl, rfl, ?_⟩
    · simp only [LifeManager.setLife, hg]
    · intro he
      simp only at he ⊢
      omega
  · intro lm p amount src h0 hmin hsane
    have hg : lm.getLife p = .ok lm.config.minLife :=
      (LifeManager.getLife_ok_iff lm p lm.config.minLife).mpr hmin
    have hclamp : clampLife lm.config (lm.config.minLife + -amount) = lm.config.minLife := by
      unfold clampLife
      rw [max_eq_right (by omega)]
      cases hm : lm.config.maxLife with
      | none => rfl
      | some m => exact min_eq_left (hsane m hm)
    refine ⟨⟨{ lm with lifeTotals := assocSet lm.lifeTotals p lm.config.minLife },
        ⟨p, lm.config.minLife, lm.config.minLife, 0, src⟩,
        [⟨p, lm.config.minLife, lm.config.minLife, 0, src⟩]⟩,
      ?_, rfl, rfl, rfl, rfl⟩
    unfold LifeManager.dealDamage
    rw [if_neg (by omega)]
    simp only [LifeManager.changeLife, hg, LifeManager.setLife, hclamp]
    simp

/-- C10 witness: a player at life 0 under the default config; `setLife`
to -7 clamps to 0 and still emits (change 0 by the last conjunct), and
`dealDamage 5` emits an event with change 0. -/
theorem setLife_always_emits_witness :
    let lmw := (LifeManager.new DEFAULT_LIFE_CONFIG).initializePlayer "p" (some 0)
    (∃ r, lmw.setLife "p" (-7) none = .ok r ∧
        r.notifications = [r.event] ∧
        r.event.previousLife = 0 ∧
        r.event.newLife = clampLife lmw.config (-7) ∧
        r.event.change = r.event.newLife - r.event.previousLife ∧
        (r.event.newLife = r.event.previousLife → r.event.change = 0))
    ∧ (∃ r, lmw.dealDamage "p" 5 none = .ok r ∧
        r.notifications = [r.event] ∧ r.event.change = 0 ∧
        r.event.newLife = lmw.config.minLife ∧
        r.event.previousLife = lmw.config.minLife) := by
  intro lmw
  exact ⟨setLife_always_emits.1 lmw "p" (-7) none 0 (by decide),
    setLife_always_emits.2 lmw "p" 5 none (by decide) (by decide)
      (by intro m hm; cases hm)⟩

end AlphaClash
